import Mathlib

/-!
# Verification of the photo-sync content-identity indexer (`src/sync.py`)

Shallow embedding of the program's core: the digest engine (`hash_file`),
the fingerprint cache, the directory indexer (`build_hash_map`) and the
duplicate-processing loop of `main`.

Modelling conventions:
* Python `dict` is modelled as an association list with unique keys
  (`dlookup` / `dinsert`); `dinsert` overwrites in place, preserving the
  position of an existing key, exactly like `d[k] = v`.
* A file on disk is an `FSFile`: its absolute path, its modification
  timestamp, its byte content, whether reading it succeeds (`readable`:
  `hash_file` returns `None` on any exception) and whether `os.path.getmtime`
  succeeds (`statOk`: the `except: continue` of the walk loop).
* The modification timestamp is modelled by its textual rendering (the string
  interpolated into `f"{full_path}:{mtime}"` and stored in the JSON cache):
  distinct timestamps have distinct renderings.
* The MD5 digest is an uninterpreted parameter `md5 : List Nat → String` of
  every function, a pure function of the file's bytes; `toyDigest` is one
  concrete instance used to evaluate witnesses and counterexamples.
* `tqdm` progress bars and time-based heartbeat log lines (lines 93-97 and
  144-148 of the source) are pure observers and are not modelled; the `log`
  field keeps the per-file `[SKIPPED]`/`[MOVED]`/`[ERROR]` lines of `main`.
-/

namespace PhotoSync

/-- Lookup in a Python-dict model: first binding of the key, if any
(`cache[key]` / `key in cache`). -/
def dlookup {α β : Type} [DecidableEq α] (k : α) : List (α × β) → Option β
  | [] => none
  | (k', v) :: rest => if k' = k then some v else dlookup k rest

/-- Insert-or-overwrite in a Python-dict model (`d[k] = v`): an existing key
keeps its position and gets the new value, a new key is appended. -/
def dinsert {α β : Type} [DecidableEq α] (k : α) (v : β) : List (α × β) → List (α × β)
  | [] => [(k, v)]
  | (k', v') :: rest => if k' = k then (k, v) :: rest else (k', v') :: dinsert k v rest

/-- A regular file as seen by the walk: absolute path, textual modification
timestamp, byte content, and the two failure switches (`readable` for
`hash_file`'s internal `except`, `statOk` for `os.path.getmtime`). -/
structure FSFile where
  path : String
  mtime : String
  content : List Nat
  readable : Bool
  statOk : Bool
deriving DecidableEq

/-- `hash_file` (source lines 34-43): streams the file through MD5 and
returns the hex digest, or `None` if any exception occurs while reading.
The digest itself is the uninterpreted parameter `md5`. -/
def hash_file (md5 : List Nat → String) (f : FSFile) : Option String :=
  if f.readable then some (md5 f.content) else none

/-- The cache key `f"{full_path}:{mtime}"` of source line 82. -/
def cacheKey (path mtime : String) : String := path ++ ":" ++ mtime

/-- The cache key of a file. -/
def keyOf (f : FSFile) : String := cacheKey f.path f.mtime

/-- `os.path.relpath(full_path, base_path)` for a path produced by walking
`base_path`: strip the base directory and the separator. -/
def relpath (full basePath : String) : String := full.drop (basePath.length + 1)

/-- The persisted fingerprint cache: JSON object mapping key strings to a
hex digest or `null` (line 87 stores `hash_file`'s result unconditionally,
so `None` values do occur). -/
abbrev Cache := List (String × Option String)

/-- The index `{hash: relative_path}` returned by `build_hash_map`. -/
abbrev FileMap := List (String × String)

/-- `if h: file_map[h] = os.path.relpath(...)` of source lines 88-89. -/
def insertIfSome (h : Option String) (r : String) (m : FileMap) : FileMap :=
  match h with
  | some s => dinsert s r m
  | none => m

/-- State of one `build_hash_map` walk: the in-memory cache, the index under
construction, and the number of Digest Engine (`hash_file`) invocations. -/
structure IxState where
  cache : Cache
  map : FileMap
  calls : Nat
deriving DecidableEq

/-- One iteration of the walk loop of `build_hash_map` (source lines 79-91):
if `getmtime` fails the file is skipped (`except: continue`); otherwise the
cache is consulted under `key = f"{path}:{mtime}"`; on a hit the cached value
(possibly `null`) is used without hashing; on a miss `hash_file` is invoked
and its result — even `None` — is recorded into the cache; finally, a
non-`None` fingerprint is written into the index, overwriting any earlier
path with the same fingerprint. -/
def ix_step (md5 : List Nat → String) (basePath : String) (st : IxState) (f : FSFile) :
    IxState :=
  if f.statOk then
    match dlookup (keyOf f) st.cache with
    | some h => { st with map := insertIfSome h (relpath f.path basePath) st.map }
    | none =>
        let h := hash_file md5 f
        { cache := dinsert (keyOf f) h st.cache
          map := insertIfSome h (relpath f.path basePath) st.map
          calls := st.calls + 1 }
  else st

/-- The walk of `build_hash_map` (source lines 70-101) over the already
extension-filtered file list, starting from the loaded cache `cache0`. It
returns the final cache (what line 99-100 persists), the index (`file_map`,
the return value), and the digest-invocation count. -/
def build_hash_map (md5 : List Nat → String) (basePath : String) (cache0 : Cache)
    (files : List FSFile) : IxState :=
  files.foldl (ix_step md5 basePath) ⟨cache0, [], 0⟩

/-- Result of loading the persisted cache: the cache and whether the
corruption warning of line 67 was logged. -/
structure LoadResult where
  cache : Cache
  warned : Bool
deriving DecidableEq

/-- Cache loading (source lines 61-68). The persisted state is `none` when
the cache file does not exist, `some none` when it exists but
`json.load` fails (corrupt data), and `some (some c)` when it parses to `c`.
A missing file yields an empty cache silently; a corrupt file yields an
empty cache plus a logged warning; neither is fatal. -/
def load_cache : Option (Option Cache) → LoadResult
  | none => ⟨[], false⟩
  | some none => ⟨[], true⟩
  | some (some c) => ⟨c, false⟩

/-- How a single persist attempt ends: it runs to completion, or the process
is interrupted after having written `written` (a prefix of the serialized
data; possibly empty). -/
inductive PersistOutcome
  | ok
  | interrupted (written : String)
deriving DecidableEq

/-- Cache persistence (source lines 99-100): `open(CACHE_FILE, "w")`
truncates the cache file in place immediately, then `json.dump` streams the
serialized cache into it. There is no temporary file: the file's resulting
content is the serialized data on completion, and only the bytes written so
far — with the prior content already destroyed by the truncation — if the
write is interrupted. `prior` is the cache file's previous content. -/
def persist_cache (serialized : String) (prior : Option String) :
    PersistOutcome → Option String
  | .ok => some serialized
  | .interrupted w => some w

/-- `get_date_taken` (source lines 46-56), with `exifread` as an external
date oracle: `dateTag` is the successfully parsed `EXIF DateTimeOriginal`
bucket `YYYY/MM/DD` when present; on any failure (missing tag, parse error,
unreadable file) the fallback bucket is `"unknown"`. -/
def get_date_taken (dateTag : Option String) : String := dateTag.getD "unknown"

/-- `os.path.basename`: the final path component — the characters after the
last `'/'` (the whole path if it has none). -/
def basename (p : String) : String :=
  ⟨p.data.foldl (fun acc c => if c = '/' then [] else acc ++ [c]) []⟩

/-- `SORTED_DIR` of source line 13. -/
def SORTED_DIR : String := "/sorted"

/-- A file of the duplicates tree as processed by `main`: the file itself,
its EXIF date bucket (if extractable), and whether the
`makedirs`/`shutil.move` phase raises an exception for it. -/
structure DupFile where
  file : FSFile
  dateTag : Option String
  moveFails : Bool
deriving DecidableEq

/-- The destination path of source lines 131-134:
`os.path.join(SORTED_DIR, date_path, os.path.basename(f))`. -/
def dest_path (f : DupFile) : String :=
  SORTED_DIR ++ "/" ++ get_date_taken f.dateTag ++ "/" ++ basename f.file.path

/-- State of the duplicate-processing loop of `main`: its three counters,
the digest-invocation count, the contents of the destination tree (path to
byte content), and the log lines emitted so far. -/
structure DupState where
  moved : Nat
  skipped : Nat
  errors : Nat
  calls : Nat
  fs : List (String × List Nat)
  log : List String
deriving DecidableEq

/-- One iteration of the duplicate loop (source lines 121-142):
`hash_file` is invoked unconditionally (no cache is consulted here); a
`None` digest silently skips the file (`if not h: continue` — no log line,
no counter); a fingerprint present in `sorted_map` is logged `[SKIPPED]`
and counted as skipped; otherwise the file is moved to `dest_path`
(`shutil.move`, which overwrites an existing destination file) and counted,
unless the move phase raises, in which case `[ERROR]` is logged and the
error counter incremented. -/
def dup_step (md5 : List Nat → String) (sorted_map : FileMap) (st : DupState)
    (f : DupFile) : DupState :=
  let st := { st with calls := st.calls + 1 }
  match hash_file md5 f.file with
  | none => st
  | some h =>
      if (dlookup h sorted_map).isSome then
        { st with
          skipped := st.skipped + 1
          log := st.log ++ ["[SKIPPED] " ++ f.file.path ++ " (duplicate)"] }
      else if f.moveFails then
        { st with
          errors := st.errors + 1
          log := st.log ++ ["[ERROR] " ++ f.file.path] }
      else
        { st with
          moved := st.moved + 1
          fs := dinsert (dest_path f) f.file.content st.fs
          log := st.log ++ ["[MOVED] " ++ f.file.path ++ " -> " ++ dest_path f] }

/-- The duplicate-processing loop of `main` (source lines 118-148) over the
extension-filtered duplicates list, starting with zeroed counters and the
destination tree contents `fs0`. -/
def process_duplicates (md5 : List Nat → String) (sorted_map : FileMap)
    (fs0 : List (String × List Nat)) (dups : List DupFile) : DupState :=
  dups.foldl (dup_step md5 sorted_map) ⟨0, 0, 0, 0, fs0, []⟩

/-- The whole run of `main` (source lines 104-152): load the cache, index
the sorted tree with it, then process the duplicates tree against the
resulting index. Returns the load result, the indexer state (whose `cache`
field is what gets persisted) and the duplicate-loop state. -/
def main (md5 : List Nat → String) (persisted : Option (Option Cache))
    (sortedFiles : List FSFile) (fs0 : List (String × List Nat))
    (dups : List DupFile) : LoadResult × IxState × DupState :=
  let lr := load_cache persisted
  let ix := build_hash_map md5 SORTED_DIR lr.cache sortedFiles
  let dp := process_duplicates md5 ix.map fs0 dups
  (lr, ix, dp)

/-- A concrete stand-in digest used only to evaluate witnesses and
counterexamples on concrete inputs; every theorem is stated for an
arbitrary digest function. -/
def toyDigest (c : List Nat) : String :=
  toString (c.foldl (fun a b => a * 256 + b + 1) 0)

/-- The index contribution of one file on a cold cache (no hit possible):
hash it and record the fingerprint, skipping files whose stat fails. Used to
characterize `build_hash_map`'s index when every lookup misses. -/
def coldStep (md5 : List Nat → String) (basePath : String) (m : FileMap) (f : FSFile) :
    FileMap :=
  if f.statOk then insertIfSome (hash_file md5 f) (relpath f.path basePath) m else m

/-- Keys of a dict model are pairwise distinct (the Python `dict` invariant). -/
def dkeysNodup {α β : Type} (d : List (α × β)) : Prop := (d.map Prod.fst).Nodup

/-- Number of entries of a dict model carrying the key `k`. -/
def dcount {α β : Type} [DecidableEq α] (k : α) (d : List (α × β)) : Nat :=
  (d.filter fun e => decide (e.1 = k)).length

section DictLemmas

variable {α β : Type} [DecidableEq α]

theorem dlookup_dinsert (k k' : α) (v : β) (d : List (α × β)) :
    dlookup k (dinsert k' v d) = if k' = k then some v else dlookup k d := by
  induction d with
  | nil => simp [dinsert, dlookup]
  | cons e rest ih =>
      obtain ⟨k1, v1⟩ := e
      by_cases h1 : k1 = k'
      · subst h1
        by_cases h2 : k1 = k <;> simp [dinsert, dlookup, h2]
      · rw [dinsert, if_neg h1]
        by_cases h2 : k1 = k
        · subst h2
          have hk' : ¬ k' = k1 := fun hh => h1 hh.symm
          simp [dlookup, hk']
        · simp [dlookup, h2, ih]

theorem dlookup_eq_none_iff (k : α) (d : List (α × β)) :
    dlookup k d = none ↔ k ∉ d.map Prod.fst := by
  induction d with
  | nil => simp [dlookup]
  | cons e rest ih =>
      obtain ⟨k1, v1⟩ := e
      by_cases h1 : k1 = k
      · subst h1
        simp [dlookup]
      · simp [dlookup, if_neg h1, ih, Ne.symm h1]

theorem mem_dinsert {e : α × β} (k : α) (v : β) (d : List (α × β))
    (he : e ∈ dinsert k v d) : e = (k, v) ∨ e ∈ d := by
  induction d with
  | nil => simpa [dinsert] using he
  | cons e1 rest ih =>
      obtain ⟨k1, v1⟩ := e1
      by_cases h1 : k1 = k
      · subst h1
        rw [dinsert, if_pos rfl] at he
        rcases List.mem_cons.1 he with h | h
        · exact Or.inl h
        · exact Or.inr (List.mem_cons_of_mem _ h)
      · rw [dinsert, if_neg h1] at he
        rcases List.mem_cons.1 he with h | h
        · exact Or.inr (h ▸ List.mem_cons_self _ _)
        · rcases ih h with h' | h'
          · exact Or.inl h'
          · exact Or.inr (List.mem_cons_of_mem _ h')

theorem dkeysNodup_dinsert (k : α) (v : β) (d : List (α × β)) (hd : dkeysNodup d) :
    dkeysNodup (dinsert k v d) := by
  induction d with
  | nil => simp [dinsert, dkeysNodup]
  | cons e rest ih =>
      obtain ⟨k1, v1⟩ := e
      rw [dkeysNodup, List.map_cons, List.nodup_cons] at hd
      by_cases h1 : k1 = k
      · subst h1
        simpa [dinsert, dkeysNodup] using hd
      · rw [dinsert, if_neg h1, dkeysNodup, List.map_cons, List.nodup_cons]
        refine ⟨?_, ih hd.2⟩
        intro hmem
        rcases (List.mem_map).1 hmem with ⟨e, he, hk⟩
        rcases mem_dinsert _ _ _ he with h | h
        · subst h
          exact h1 hk.symm
        · exact hd.1 ((List.mem_map).2 ⟨e, h, hk⟩)

theorem dcount_eq_zero_of_not_mem (k : α) (d : List (α × β))
    (h : k ∉ d.map Prod.fst) : dcount k d = 0 := by
  induction d with
  | nil => rfl
  | cons e rest ih =>
      obtain ⟨k1, v1⟩ := e
      rw [List.map_cons, List.mem_cons, not_or] at h
      have hne : ¬ k1 = k := fun hh => h.1 hh.symm
      rw [dcount, List.filter_cons, if_neg (by simp [hne])]
      exact ih h.2

theorem dcount_eq_one_of_lookup (k : α) (v : β) (d : List (α × β))
    (hd : dkeysNodup d) (hl : dlookup k d = some v) : dcount k d = 1 := by
  induction d with
  | nil => simp [dlookup] at hl
  | cons e rest ih =>
      obtain ⟨k1, v1⟩ := e
      rw [dkeysNodup, List.map_cons, List.nodup_cons] at hd
      by_cases h1 : k1 = k
      · subst h1
        have h0 : dcount k1 rest = 0 := dcount_eq_zero_of_not_mem _ _ hd.1
        rw [dcount, List.filter_cons, if_pos (by simp), List.length_cons]
        rw [dcount] at h0
        omega
      · rw [dlookup, if_neg h1] at hl
        rw [dcount, List.filter_cons, if_neg (by simp [h1])]
        exact ih hd.2 hl

end DictLemmas

section IndexerLemmas

variable (md5 : List Nat → String) (b : String)

theorem cacheKey_right_inj (p m m' : String) (h : cacheKey p m = cacheKey p m') :
    m = m' := by
  rw [cacheKey, cacheKey] at h
  have hd : ((p ++ ":") ++ m).data = ((p ++ ":") ++ m').data := by rw [h]
  rw [String.data_append, String.data_append] at hd
  exact String.ext (List.append_cancel_left hd)

theorem ix_step_skip (st : IxState) (f : FSFile) (hs : f.statOk = false) :
    ix_step md5 b st f = st := by
  simp [ix_step, hs]

theorem ix_step_hit (st : IxState) (f : FSFile) (h : Option String)
    (hs : f.statOk = true) (hl : dlookup (keyOf f) st.cache = some h) :
    ix_step md5 b st f = { st with map := insertIfSome h (relpath f.path b) st.map } := by
  simp [ix_step, hs, hl]

theorem ix_step_miss (st : IxState) (f : FSFile)
    (hs : f.statOk = true) (hl : dlookup (keyOf f) st.cache = none) :
    ix_step md5 b st f =
      ⟨dinsert (keyOf f) (hash_file md5 f) st.cache,
       insertIfSome (hash_file md5 f) (relpath f.path b) st.map,
       st.calls + 1⟩ := by
  simp [ix_step, hs, hl]

theorem ix_step_binding (st : IxState) (f : FSFile) (k : String) (v : Option String)
    (h : dlookup k st.cache = some v) :
    dlookup k (ix_step md5 b st f).cache = some v := by
  cases hs : f.statOk with
  | false => rw [ix_step_skip md5 b st f hs]; exact h
  | true =>
      cases hl : dlookup (keyOf f) st.cache with
      | some h' => rw [ix_step_hit md5 b st f h' hs hl]; exact h
      | none =>
          rw [ix_step_miss md5 b st f hs hl]
          show dlookup k (dinsert (keyOf f) (hash_file md5 f) st.cache) = some v
          rw [dlookup_dinsert]
          have hne : ¬ keyOf f = k := by
            intro he
            rw [he, h] at hl
            cases hl
          rw [if_neg hne]
          exact h

theorem ix_fold_binding (files : List FSFile) (st : IxState) (k : String)
    (v : Option String) (h : dlookup k st.cache = some v) :
    dlookup k (files.foldl (ix_step md5 b) st).cache = some v := by
  induction files generalizing st with
  | nil => exact h
  | cons g rest ih =>
      rw [List.foldl_cons]
      exact ih _ (ix_step_binding md5 b st g k v h)

theorem ix_fold_key_bound (files : List FSFile) (st : IxState) (f : FSFile)
    (hf : f ∈ files) (hs : f.statOk = true) :
    ∃ v, dlookup (keyOf f) (files.foldl (ix_step md5 b) st).cache = some v := by
  induction files generalizing st with
  | nil => cases hf
  | cons g rest ih =>
      rw [List.foldl_cons]
      rcases List.mem_cons.1 hf with rfl | hmem
      · have : ∃ v, dlookup (keyOf f) (ix_step md5 b st f).cache = some v := by
          cases hl : dlookup (keyOf f) st.cache with
          | some h' =>
              exact ⟨h', by rw [ix_step_hit md5 b st f h' hs hl]; exact hl⟩
          | none =>
              refine ⟨hash_file md5 f, ?_⟩
              rw [ix_step_miss md5 b st f hs hl]
              show dlookup (keyOf f)
                (dinsert (keyOf f) (hash_file md5 f) st.cache) = some (hash_file md5 f)
              rw [dlookup_dinsert, if_pos rfl]
        obtain ⟨v, hv⟩ := this
        exact ⟨v, ix_fold_binding md5 b rest _ _ v hv⟩
      · exact ih _ hmem

theorem ix_fold_all_hits (files : List FSFile) (st : IxState)
    (h : ∀ f ∈ files, f.statOk = true → ∃ v, dlookup (keyOf f) st.cache = some v) :
    (files.foldl (ix_step md5 b) st).cache = st.cache ∧
    (files.foldl (ix_step md5 b) st).calls = st.calls := by
  induction files generalizing st with
  | nil => exact ⟨rfl, rfl⟩
  | cons g rest ih =>
      rw [List.foldl_cons]
      cases hs : g.statOk with
      | false =>
          rw [ix_step_skip md5 b st g hs]
          exact ih st (fun f hf hsf => h f (List.mem_cons_of_mem _ hf) hsf)
      | true =>
          obtain ⟨v, hv⟩ := h g (List.mem_cons_self _ _) hs
          rw [ix_step_hit md5 b st g v hs hv]
          exact ih _ (fun f hf hsf => h f (List.mem_cons_of_mem _ hf) hsf)

theorem ix_fold_lockstep (files : List FSFile) (s1 s2 : IxState)
    (hmap : s2.map = s1.map)
    (hc : ∀ f ∈ files, f.statOk = true →
      dlookup (keyOf f) s2.cache =
        dlookup (keyOf f) ((files.foldl (ix_step md5 b) s1).cache)) :
    (files.foldl (ix_step md5 b) s2).map = (files.foldl (ix_step md5 b) s1).map := by
  induction files generalizing s1 s2 with
  | nil => exact hmap
  | cons g rest ih =>
      rw [List.foldl_cons, List.foldl_cons]
      cases hs : g.statOk with
      | false =>
          rw [ix_step_skip md5 b s1 g hs, ix_step_skip md5 b s2 g hs]
          refine ih s1 s2 hmap (fun f hf hsf => ?_)
          have := hc f (List.mem_cons_of_mem _ hf) hsf
          rwa [List.foldl_cons, ix_step_skip md5 b s1 g hs] at this
      | true =>
          have hres : ∃ res,
              dlookup (keyOf g) (((g :: rest).foldl (ix_step md5 b) s1).cache) = some res ∧
              ix_step md5 b s1 g =
                { s1 with map := insertIfSome res (relpath g.path b) s1.map,
                          cache := (ix_step md5 b s1 g).cache,
                          calls := (ix_step md5 b s1 g).calls } := by
            cases hl1 : dlookup (keyOf g) s1.cache with
            | some h1 =>
                refine ⟨h1, ?_, ?_⟩
                · rw [List.foldl_cons]
                  refine ix_fold_binding md5 b rest _ _ _ ?_
                  rw [ix_step_hit md5 b s1 g h1 hs hl1]
                  exact hl1
                · rw [ix_step_hit md5 b s1 g h1 hs hl1]
            | none =>
                refine ⟨hash_file md5 g, ?_, ?_⟩
                · rw [List.foldl_cons]
                  refine ix_fold_binding md5 b rest _ _ _ ?_
                  rw [ix_step_miss md5 b s1 g hs hl1]
                  show dlookup (keyOf g)
                    (dinsert (keyOf g) (hash_file md5 g) s1.cache) = some (hash_file md5 g)
                  rw [dlookup_dinsert, if_pos rfl]
                · rw [ix_step_miss md5 b s1 g hs hl1]
          obtain ⟨res, hresf, hstep1⟩ := hres
          have hl2 : dlookup (keyOf g) s2.cache = some res := by
            rw [hc g (List.mem_cons_self _ _) hs]
            exact hresf
          rw [ix_step_hit md5 b s2 g res hs hl2]
          refine ih (ix_step md5 b s1 g) _ ?_ (fun f hf hsf => ?_)
          · show insertIfSome res (relpath g.path b) s2.map = (ix_step md5 b s1 g).map
            rw [hstep1, hmap]
          · show dlookup (keyOf f)
              ({ s2 with map := insertIfSome res (relpath g.path b) s2.map } : IxState).cache =
              dlookup (keyOf f) ((rest.foldl (ix_step md5 b) (ix_step md5 b s1 g)).cache)
            have := hc f (List.mem_cons_of_mem _ hf) hsf
            rwa [List.foldl_cons] at this

end IndexerLemmas

section ColdLemmas

variable (md5 : List Nat → String) (b : String)

theorem dkeysNodup_insertIfSome (h : Option String) (r : String) (m : FileMap)
    (hm : dkeysNodup m) : dkeysNodup (insertIfSome h r m) := by
  cases h with
  | none => exact hm
  | some s => exact dkeysNodup_dinsert s r m hm

theorem ix_fold_map_nodup (files : List FSFile) (st : IxState)
    (h : dkeysNodup st.map) :
    dkeysNodup ((files.foldl (ix_step md5 b) st).map) := by
  induction files generalizing st with
  | nil => exact h
  | cons g rest ih =>
      rw [List.foldl_cons]
      cases hs : g.statOk with
      | false => rw [ix_step_skip md5 b st g hs]; exact ih st h
      | true =>
          cases hl : dlookup (keyOf g) st.cache with
          | some h' =>
              rw [ix_step_hit md5 b st g h' hs hl]
              exact ih _ (dkeysNodup_insertIfSome h' _ _ h)
          | none =>
              rw [ix_step_miss md5 b st g hs hl]
              exact ih _ (dkeysNodup_insertIfSome _ _ _ h)

theorem ix_fold_cold (files : List FSFile) (st : IxState)
    (hnd : (files.map keyOf).Nodup)
    (hmiss : ∀ f ∈ files, dlookup (keyOf f) st.cache = none) :
    (files.foldl (ix_step md5 b) st).map = files.foldl (coldStep md5 b) st.map := by
  induction files generalizing st with
  | nil => rfl
  | cons g rest ih =>
      rw [List.foldl_cons, List.foldl_cons]
      rw [List.map_cons, List.nodup_cons] at hnd
      cases hs : g.statOk with
      | false =>
          rw [ix_step_skip md5 b st g hs]
          have hcold : coldStep md5 b st.map g = st.map := by simp [coldStep, hs]
          rw [hcold]
          exact ih st hnd.2 (fun f hf => hmiss f (List.mem_cons_of_mem _ hf))
      | true =>
          have hl := hmiss g (List.mem_cons_self _ _)
          rw [ix_step_miss md5 b st g hs hl]
          have hcold : coldStep md5 b st.map g
              = insertIfSome (hash_file md5 g) (relpath g.path b) st.map := by
            simp [coldStep, hs]
          rw [hcold]
          refine ih _ hnd.2 (fun f hf => ?_)
          show dlookup (keyOf f) (dinsert (keyOf g) (hash_file md5 g) st.cache) = none
          have hne : ¬ keyOf g = keyOf f := by
            intro he
            exact hnd.1 (by rw [he]; exact List.mem_map_of_mem keyOf hf)
          rw [dlookup_dinsert, if_neg hne]
          exact hmiss f (List.mem_cons_of_mem _ hf)

theorem cold_fold_lookup_of_no_hash (l : List FSFile) (m : FileMap) (h : String)
    (hno : ∀ g ∈ l, g.statOk = true → hash_file md5 g ≠ some h) :
    dlookup h (l.foldl (coldStep md5 b) m) = dlookup h m := by
  induction l generalizing m with
  | nil => rfl
  | cons g rest ih =>
      rw [List.foldl_cons]
      have hrest : ∀ g' ∈ rest, g'.statOk = true → hash_file md5 g' ≠ some h :=
        fun g' hg' => hno g' (List.mem_cons_of_mem _ hg')
      cases hs : g.statOk with
      | false =>
          have : coldStep md5 b m g = m := by simp [coldStep, hs]
          rw [this]
          exact ih m hrest
      | true =>
          have hne := hno g (List.mem_cons_self _ _) hs
          cases hh : hash_file md5 g with
          | none =>
              have : coldStep md5 b m g = m := by simp [coldStep, hs, hh, insertIfSome]
              rw [this]
              exact ih m hrest
          | some s =>
              have hsne : ¬ s = h := by
                intro he
                exact hne (by rw [hh, he])
              have : coldStep md5 b m g = dinsert s (relpath g.path b) m := by
                simp [coldStep, hs, hh, insertIfSome]
              rw [this, ih _ hrest, dlookup_dinsert, if_neg hsne]

theorem cold_fold_mem (l : List FSFile) (m : FileMap) (e : String × String)
    (he : e ∈ l.foldl (coldStep md5 b) m) :
    e ∈ m ∨ ∃ f ∈ l, f.statOk = true ∧ hash_file md5 f = some e.1 ∧
      relpath f.path b = e.2 := by
  induction l generalizing m with
  | nil => exact Or.inl he
  | cons g rest ih =>
      rw [List.foldl_cons] at he
      rcases ih _ he with hm | ⟨f, hf, hsf, hhf, hrf⟩
      · by_cases hs : g.statOk = true
        · cases hh : hash_file md5 g with
          | none =>
              rw [show coldStep md5 b m g = m by simp [coldStep, hs, hh, insertIfSome]] at hm
              exact Or.inl hm
          | some s =>
              rw [show coldStep md5 b m g = dinsert s (relpath g.path b) m by
                simp [coldStep, hs, hh, insertIfSome]] at hm
              rcases mem_dinsert _ _ _ hm with h' | h'
              · subst h'
                exact Or.inr ⟨g, List.mem_cons_self _ _, hs, hh, rfl⟩
              · exact Or.inl h'
        · rw [show coldStep md5 b m g = m by simp [coldStep, hs]] at hm
          exact Or.inl hm
      · exact Or.inr ⟨f, List.mem_cons_of_mem _ hf, hsf, hhf, hrf⟩

end ColdLemmas

section DupLemmas

variable (md5 : List Nat → String) (sm : FileMap)

theorem dup_step_hashfail (st : DupState) (f : DupFile)
    (h : hash_file md5 f.file = none) :
    dup_step md5 sm st f = { st with calls := st.calls + 1 } := by
  simp [dup_step, h]

theorem dup_step_dup (st : DupState) (f : DupFile) (h : String)
    (hh : hash_file md5 f.file = some h)
    (hd : (dlookup h sm).isSome = true) :
    dup_step md5 sm st f =
      { st with calls := st.calls + 1, skipped := st.skipped + 1,
                log := st.log ++ ["[SKIPPED] " ++ f.file.path ++ " (duplicate)"] } := by
  simp [dup_step, hh, hd]

theorem dup_step_new_fail (st : DupState) (f : DupFile) (h : String)
    (hh : hash_file md5 f.file = some h)
    (hd : dlookup h sm = none) (hm : f.moveFails = true) :
    dup_step md5 sm st f =
      { st with calls := st.calls + 1, errors := st.errors + 1,
                log := st.log ++ ["[ERROR] " ++ f.file.path] } := by
  simp [dup_step, hh, hd, hm]

theorem dup_step_new_move (st : DupState) (f : DupFile) (h : String)
    (hh : hash_file md5 f.file = some h)
    (hd : dlookup h sm = none) (hm : f.moveFails = false) :
    dup_step md5 sm st f =
      { st with calls := st.calls + 1, moved := st.moved + 1,
                fs := dinsert (dest_path f) f.file.content st.fs,
                log := st.log ++ ["[MOVED] " ++ f.file.path ++ " -> " ++ dest_path f] } := by
  simp [dup_step, hh, hd, hm]

theorem dup_step_calls (st : DupState) (f : DupFile) :
    (dup_step md5 sm st f).calls = st.calls + 1 := by
  cases hh : hash_file md5 f.file with
  | none => rw [dup_step_hashfail md5 sm st f hh]
  | some h =>
      cases hd : (dlookup h sm).isSome with
      | true => rw [dup_step_dup md5 sm st f h hh hd]
      | false =>
          have hdn : dlookup h sm = none := Option.not_isSome_iff_eq_none.1 (by simp [hd])
          cases hm : f.moveFails with
          | true => rw [dup_step_new_fail md5 sm st f h hh hdn hm]
          | false => rw [dup_step_new_move md5 sm st f h hh hdn hm]

theorem dup_step_calls_shift (st : DupState) (c : Nat) (f : DupFile) :
    dup_step md5 sm { st with calls := c } f =
      { dup_step md5 sm st f with calls := c + 1 } := by
  cases hh : hash_file md5 f.file with
  | none =>
      rw [dup_step_hashfail md5 sm _ f hh, dup_step_hashfail md5 sm st f hh]
  | some h =>
      cases hd : (dlookup h sm).isSome with
      | true => rw [dup_step_dup md5 sm _ f h hh hd, dup_step_dup md5 sm st f h hh hd]
      | false =>
          have hdn : dlookup h sm = none := Option.not_isSome_iff_eq_none.1 (by simp [hd])
          cases hm : f.moveFails with
          | true =>
              rw [dup_step_new_fail md5 sm _ f h hh hdn hm,
                dup_step_new_fail md5 sm st f h hh hdn hm]
          | false =>
              rw [dup_step_new_move md5 sm _ f h hh hdn hm,
                dup_step_new_move md5 sm st f h hh hdn hm]

theorem dup_fold_calls (l : List DupFile) (st : DupState) :
    (l.foldl (dup_step md5 sm) st).calls = st.calls + l.length := by
  induction l generalizing st with
  | nil => rfl
  | cons g rest ih =>
      rw [List.foldl_cons, ih, dup_step_calls, List.length_cons]
      omega

theorem dup_fold_calls_shift (l : List DupFile) (st : DupState) (c : Nat) :
    l.foldl (dup_step md5 sm) { st with calls := c } =
      { l.foldl (dup_step md5 sm) st with calls := c + l.length } := by
  induction l generalizing st c with
  | nil => simp
  | cons g rest ih =>
      rw [List.foldl_cons, List.foldl_cons, dup_step_calls_shift, ih, List.length_cons]
      rw [show c + 1 + rest.length = c + (rest.length + 1) from by omega]

theorem dup_fold_counts (l : List DupFile) (st : DupState) :
    (l.foldl (dup_step md5 sm) st).moved + (l.foldl (dup_step md5 sm) st).skipped +
      (l.foldl (dup_step md5 sm) st).errors =
    st.moved + st.skipped + st.errors +
      l.countP (fun f => (hash_file md5 f.file).isSome) := by
  induction l generalizing st with
  | nil => simp [List.countP_nil]
  | cons g rest ih =>
      rw [List.foldl_cons, List.countP_cons, ih]
      cases hh : hash_file md5 g.file with
      | none =>
          rw [dup_step_hashfail md5 sm st g hh]
          simp [hh]
      | some h =>
          cases hd : (dlookup h sm).isSome with
          | true =>
              rw [dup_step_dup md5 sm st g h hh hd]
              simp [hh]
              omega
          | false =>
              have hdn : dlookup h sm = none := Option.not_isSome_iff_eq_none.1 (by simp [hd])
              cases hm : g.moveFails with
              | true =>
                  rw [dup_step_new_fail md5 sm st g h hh hdn hm]
                  simp [hh]
                  omega
              | false =>
                  rw [dup_step_new_move md5 sm st g h hh hdn hm]
                  simp [hh]
                  omega

theorem dup_count_some_add_none (md5 : List Nat → String) (l : List DupFile) :
    l.countP (fun g => (hash_file md5 g.file).isSome) +
      l.countP (fun g => (hash_file md5 g.file).isNone) = l.length := by
  induction l with
  | nil => rfl
  | cons g rest ih =>
      rw [List.countP_cons, List.countP_cons, List.length_cons]
      cases hh : hash_file md5 g.file <;> simp [hh] <;> omega

end DupLemmas

/-- **C4** (confirmed): for every tree (file list) and starting cache, running
the Directory Indexer a second time with the cache persisted by the first run
yields an identical index, leaves the warm cache unchanged, and performs zero
Digest Engine invocations on the second run. -/
theorem C4_idempotent_warm_rerun (md5 : List Nat → String) (b : String)
    (cache0 : Cache) (files : List FSFile) :
    (build_hash_map md5 b (build_hash_map md5 b cache0 files).cache files).map
      = (build_hash_map md5 b cache0 files).map ∧
    (build_hash_map md5 b (build_hash_map md5 b cache0 files).cache files).cache
      = (build_hash_map md5 b cache0 files).cache ∧
    (build_hash_map md5 b (build_hash_map md5 b cache0 files).cache files).calls = 0 := by
  have hbound : ∀ f ∈ files, f.statOk = true →
      ∃ v, dlookup (keyOf f) (build_hash_map md5 b cache0 files).cache = some v :=
    fun f hf hs => ix_fold_key_bound md5 b files ⟨cache0, [], 0⟩ f hf hs
  have hfull := ix_fold_all_hits md5 b files
    ⟨(build_hash_map md5 b cache0 files).cache, [], 0⟩ hbound
  refine ⟨?_, hfull.1, hfull.2⟩
  exact ix_fold_lockstep md5 b files ⟨cache0, [], 0⟩
    ⟨(build_hash_map md5 b cache0 files).cache, [], 0⟩ rfl (fun f hf hs => rfl)

/-- **C2** (confirmed): if a file's mtime differs between two index runs, the
second run misses the cache (the key embeds the current mtime, and keys with
different mtimes differ), invokes the Digest Engine exactly once, and indexes
the fresh fingerprint of the current content — the stale entry survives only
under the old key. -/
theorem C2_mtime_invalidates (md5 : List Nat → String) (b p m1 m2 : String)
    (c1 c2 : List Nat) (hm : m1 ≠ m2) :
    (build_hash_map md5 b
        (build_hash_map md5 b [] [⟨p, m1, c1, true, true⟩]).cache
        [⟨p, m2, c2, true, true⟩]).calls = 1 ∧
    (build_hash_map md5 b
        (build_hash_map md5 b [] [⟨p, m1, c1, true, true⟩]).cache
        [⟨p, m2, c2, true, true⟩]).map = [(md5 c2, relpath p b)] ∧
    (build_hash_map md5 b
        (build_hash_map md5 b [] [⟨p, m1, c1, true, true⟩]).cache
        [⟨p, m2, c2, true, true⟩]).cache =
      [(cacheKey p m1, some (md5 c1)), (cacheKey p m2, some (md5 c2))] := by
  have hne : ¬ cacheKey p m1 = cacheKey p m2 :=
    fun he => hm (cacheKey_right_inj p m1 m2 he)
  have hr1 : build_hash_map md5 b [] [⟨p, m1, c1, true, true⟩]
      = ⟨[(cacheKey p m1, some (md5 c1))], [(md5 c1, relpath p b)], 1⟩ := rfl
  rw [hr1]
  have hl : dlookup (cacheKey p m2) [(cacheKey p m1, some (md5 c1))]
      = (none : Option (Option String)) := by
    simp [dlookup, hne]
  have hr2 : build_hash_map md5 b [(cacheKey p m1, some (md5 c1))]
      [⟨p, m2, c2, true, true⟩]
      = ⟨[(cacheKey p m1, some (md5 c1)), (cacheKey p m2, some (md5 c2))],
         [(md5 c2, relpath p b)], 1⟩ := by
    have hstep := ix_step_miss md5 b ⟨[(cacheKey p m1, some (md5 c1))], [], 0⟩
      ⟨p, m2, c2, true, true⟩ rfl hl
    simp only [build_hash_map, List.foldl_cons, List.foldl_nil, hstep]
    simp [keyOf, hash_file, insertIfSome, dinsert, hne]
  rw [hr2]
  exact ⟨rfl, rfl, rfl⟩

/-- Witness for C2 at a concrete file whose mtime moves from `"100.0"` to
`"200.0"` between runs. -/
theorem C2_mtime_invalidates_witness :
    (build_hash_map toyDigest "/sorted"
        (build_hash_map toyDigest "/sorted" []
          [⟨"/sorted/a.jpg", "100.0", [1], true, true⟩]).cache
        [⟨"/sorted/a.jpg", "200.0", [2], true, true⟩]).calls = 1 ∧
    (build_hash_map toyDigest "/sorted"
        (build_hash_map toyDigest "/sorted" []
          [⟨"/sorted/a.jpg", "100.0", [1], true, true⟩]).cache
        [⟨"/sorted/a.jpg", "200.0", [2], true, true⟩]).map
      = [(toyDigest [2], relpath "/sorted/a.jpg" "/sorted")] ∧
    (build_hash_map toyDigest "/sorted"
        (build_hash_map toyDigest "/sorted" []
          [⟨"/sorted/a.jpg", "100.0", [1], true, true⟩]).cache
        [⟨"/sorted/a.jpg", "200.0", [2], true, true⟩]).cache =
      [(cacheKey "/sorted/a.jpg" "100.0", some (toyDigest [1])),
       (cacheKey "/sorted/a.jpg" "200.0", some (toyDigest [2]))] :=
  C2_mtime_invalidates toyDigest "/sorted" "/sorted/a.jpg" "100.0" "200.0" [1] [2]
    (by decide)

/-- **C6** counterexample: the claim says the cache is persisted via a
temporary file and an atomic swap, so an interrupted persist leaves the
previously persisted file intact. In the code (lines 99-100) the cache file
is opened with mode `"w"` — truncating it in place — and an interruption
after the truncation leaves the file with only the partial bytes (here: the
empty string), not the prior content `"old"`. -/
theorem C6_counterexample :
    persist_cache "new" (some "old") (PersistOutcome.interrupted "") = some "" ∧
    (some "" : Option String) ≠ some "old" :=
  ⟨rfl, by decide⟩

/-- **C6** (amended): the cache is persisted by truncating and rewriting the
cache file in place; a persist that completes stores the serialized data, but
an interrupted persist leaves only the bytes written so far and the prior
content is lost. The only protection is defensive loading: a corrupt cache
file is read back as an empty cache with a warning, never a crash. -/
theorem C6_amended_persist_in_place (serialized w : String) (prior : Option String) :
    persist_cache serialized prior (PersistOutcome.interrupted w) = some w ∧
    persist_cache serialized prior PersistOutcome.ok = some serialized ∧
    (load_cache (some none)).cache = [] ∧ (load_cache (some none)).warned = true :=
  ⟨rfl, rfl, rfl, rfl⟩

/-- **C1** counterexample: two files with identical content `[9]` are walked
in order `a/x.jpg`, `b/y.jpg`; the claim says the retained representative is
the first one's relative path (`"a/x.jpg"`), but line 89
(`file_map[h] = ...` with no presence check) makes the index retain the LAST
one's path, `"b/y.jpg"`. -/
theorem C1_counterexample :
    dlookup (toyDigest [9])
      (build_hash_map toyDigest "/sorted" []
        [⟨"/sorted/a/x.jpg", "1.0", [9], true, true⟩,
         ⟨"/sorted/b/y.jpg", "2.0", [9], true, true⟩]).map
      = some "b/y.jpg" ∧ ("b/y.jpg" : String) ≠ "a/x.jpg" := by
  constructor
  · decide
  · decide

/-- **C1** (amended): for a tree containing two files with identical byte
content, the index contains exactly one entry for that fingerprint, but the
representative relative path retained is that of the LAST such file in
traversal order (last-write-wins): later duplicates replace earlier ones.
`f1` and `f2` carry the same content, `f2` is the last file of the traversal
whose digest equals theirs, and distinct walked paths/mtimes give distinct
cache keys (`hnd`). -/
theorem C1_amended_last_wins (md5 : List Nat → String) (b : String)
    (xs ys zs : List FSFile) (f1 f2 : FSFile)
    (hnd : ((xs ++ f1 :: ys ++ f2 :: zs).map keyOf).Nodup)
    (hs2 : f2.statOk = true) (hr2 : f2.readable = true)
    (hcc : f1.content = f2.content)
    (hzs : ∀ g ∈ zs, md5 g.content ≠ md5 f2.content) :
    dlookup (md5 f1.content)
        (build_hash_map md5 b [] (xs ++ f1 :: ys ++ f2 :: zs)).map
      = some (relpath f2.path b) ∧
    dcount (md5 f1.content)
        (build_hash_map md5 b [] (xs ++ f1 :: ys ++ f2 :: zs)).map = 1 := by
  have hcold := ix_fold_cold md5 b (xs ++ f1 :: ys ++ f2 :: zs) ⟨[], [], 0⟩ hnd
    (fun f _ => rfl)
  have hno : ∀ g ∈ zs, g.statOk = true → hash_file md5 g ≠ some (md5 f2.content) := by
    intro g hg _ hcontra
    rw [hash_file] at hcontra
    by_cases hrg : g.readable = true
    · rw [if_pos hrg] at hcontra
      exact hzs g hg (Option.some.inj hcontra)
    · rw [if_neg hrg] at hcontra
      cases hcontra
  have hstep2 : coldStep md5 b
      ((ys.foldl (coldStep md5 b)
        (coldStep md5 b (xs.foldl (coldStep md5 b) ([] : FileMap)) f1))) f2
      = dinsert (md5 f2.content) (relpath f2.path b)
          ((ys.foldl (coldStep md5 b)
            (coldStep md5 b (xs.foldl (coldStep md5 b) ([] : FileMap)) f1))) := by
    simp [coldStep, hs2, hash_file, hr2, insertIfSome]
  have hmain : dlookup (md5 f2.content)
      (build_hash_map md5 b [] (xs ++ f1 :: ys ++ f2 :: zs)).map
      = some (relpath f2.path b) := by
    have : (build_hash_map md5 b [] (xs ++ f1 :: ys ++ f2 :: zs)).map
        = (xs ++ f1 :: ys ++ f2 :: zs).foldl (coldStep md5 b) [] := hcold
    rw [this, List.foldl_append, List.foldl_cons, List.foldl_append, List.foldl_cons]
    rw [hstep2, cold_fold_lookup_of_no_hash md5 b zs _ _ hno]
    rw [dlookup_dinsert, if_pos rfl]
  have hnodupmap : dkeysNodup ((build_hash_map md5 b []
      (xs ++ f1 :: ys ++ f2 :: zs)).map) :=
    ix_fold_map_nodup md5 b _ ⟨[], [], 0⟩ List.nodup_nil
  rw [hcc]
  exact ⟨hmain, dcount_eq_one_of_lookup _ _ _ hnodupmap hmain⟩

/-- Witness for the amended C1 at two concrete same-content files. -/
theorem C1_amended_last_wins_witness :
    dlookup (toyDigest [9])
      (build_hash_map toyDigest "/sorted" []
        [⟨"/sorted/a/x.jpg", "1.0", [9], true, true⟩,
         ⟨"/sorted/b/y.jpg", "2.0", [9], true, true⟩]).map
      = some (relpath "/sorted/b/y.jpg" "/sorted") ∧
    dcount (toyDigest [9])
      (build_hash_map toyDigest "/sorted" []
        [⟨"/sorted/a/x.jpg", "1.0", [9], true, true⟩,
         ⟨"/sorted/b/y.jpg", "2.0", [9], true, true⟩]).map = 1 :=
  C1_amended_last_wins toyDigest "/sorted" [] [] []
    ⟨"/sorted/a/x.jpg", "1.0", [9], true, true⟩
    ⟨"/sorted/b/y.jpg", "2.0", [9], true, true⟩
    (by decide) (by decide) (by decide) (by decide) (by decide)

/-- **C7** counterexample: the claim says a file whose digest fails
contributes no entry to the Fingerprint Cache. In the code the assignment
`cache[key] = h` (line 87) runs before the `if h:` test, so the failed file's
key ends up in the persisted cache bound to `null`. -/
theorem C7_counterexample :
    dlookup (cacheKey "/sorted/x.jpg" "5.0")
      (build_hash_map toyDigest "/sorted" []
        [⟨"/sorted/x.jpg", "5.0", [1], false, true⟩]).cache = some none := by
  decide

/-- **C7** (amended): a file whose digest fails is skipped — it contributes
no index entry and the walk continues with the remaining files — but it DOES
contribute a cache entry: its `(path, mtime)` key is recorded with a `null`
fingerprint (and one Digest Engine invocation was spent on it). -/
theorem C7_amended_failed_digest (md5 : List Nat → String) (b : String)
    (cache0 : Cache) (xs ys : List FSFile) (f : FSFile)
    (hs : f.statOk = true) (hr : f.readable = false)
    (hl : dlookup (keyOf f) (build_hash_map md5 b cache0 xs).cache = none) :
    build_hash_map md5 b cache0 (xs ++ f :: ys) =
      ys.foldl (ix_step md5 b)
        ⟨dinsert (keyOf f) none (build_hash_map md5 b cache0 xs).cache,
         (build_hash_map md5 b cache0 xs).map,
         (build_hash_map md5 b cache0 xs).calls + 1⟩ := by
  have hhf : hash_file md5 f = none := by
    rw [hash_file, if_neg (by simp [hr])]
  simp only [build_hash_map, List.foldl_append, List.foldl_cons]
  rw [ix_step_miss md5 b (List.foldl (ix_step md5 b) ⟨cache0, [], 0⟩ xs) f hs hl, hhf]
  rfl

/-- Witness for the amended C7: a single unreadable file leaves a `null`
cache entry, an empty index, and one digest invocation. -/
theorem C7_amended_failed_digest_witness :
    build_hash_map toyDigest "/sorted" []
      ([] ++ ⟨"/sorted/x.jpg", "5.0", [1], false, true⟩ :: []) =
      List.foldl (ix_step toyDigest "/sorted")
        ⟨dinsert (keyOf ⟨"/sorted/x.jpg", "5.0", [1], false, true⟩) none
           (build_hash_map toyDigest "/sorted" [] []).cache,
         (build_hash_map toyDigest "/sorted" [] []).map,
         (build_hash_map toyDigest "/sorted" [] []).calls + 1⟩ [] :=
  C7_amended_failed_digest toyDigest "/sorted" [] [] []
    ⟨"/sorted/x.jpg", "5.0", [1], false, true⟩ (by decide) (by decide) (by decide)

/-- **C5** (confirmed): loading a corrupt cache file logs the warning and
yields the empty cache, and the subsequent indexer run completes and produces
the full-rehash index: exactly the fold that digests every stat-able file
afresh (`coldStep`), with no influence from the corrupted data. `hnd`:
distinct walked files have distinct `(path, mtime)` keys. -/
theorem C5_corrupt_cache_recovery (md5 : List Nat → String) (b : String)
    (files : List FSFile) (hnd : (files.map keyOf).Nodup) :
    (load_cache (some none)).warned = true ∧
    (load_cache (some none)).cache = [] ∧
    (build_hash_map md5 b (load_cache (some none)).cache files).map
      = files.foldl (coldStep md5 b) [] :=
  ⟨rfl, rfl, ix_fold_cold md5 b files ⟨[], [], 0⟩ hnd (fun f _ => rfl)⟩

/-- Witness for C5 on a concrete two-file tree. -/
theorem C5_corrupt_cache_recovery_witness :
    (load_cache (some none)).warned = true ∧
    (load_cache (some none)).cache = [] ∧
    (build_hash_map toyDigest "/sorted" (load_cache (some none)).cache
        [⟨"/sorted/a.jpg", "1.0", [1], true, true⟩,
         ⟨"/sorted/b.jpg", "2.0", [2], true, true⟩]).map
      = [⟨"/sorted/a.jpg", "1.0", [1], true, true⟩,
         ⟨"/sorted/b.jpg", "2.0", [2], true, true⟩].foldl
          (coldStep toyDigest "/sorted") [] :=
  C5_corrupt_cache_recovery toyDigest "/sorted"
    [⟨"/sorted/a.jpg", "1.0", [1], true, true⟩,
     ⟨"/sorted/b.jpg", "2.0", [2], true, true⟩] (by decide)

/-- **C3** counterexample: the claim says the number of new actions plus the
number of skip actions equals the number of processed source files. With one
unreadable source file and an empty destination index, the code's
`if not h: continue` (lines 124-125) produces neither a new nor a skip
action: new + skip = 0 while |S| = 1. -/
theorem C3_counterexample :
    ¬ ((process_duplicates toyDigest [] []
          [⟨⟨"/duplicates/a.jpg", "1.0", [1], false, true⟩, none, false⟩]).moved +
        (process_duplicates toyDigest [] []
          [⟨⟨"/duplicates/a.jpg", "1.0", [1], false, true⟩, none, false⟩]).skipped
        = ([⟨⟨"/duplicates/a.jpg", "1.0", [1], false, true⟩, none, false⟩]
            : List DupFile).length) := by
  decide

/-- **C3** (amended): a source file whose digest succeeds is skipped exactly
when its fingerprint is present in the destination index and is planned for
placement (move attempted: moved or errored) exactly when it is absent; the
count identity holds only after also counting the files whose digest failed:
moved + skipped + errors + digest-failures = |S|. -/
theorem C3_amended_plan (md5 : List Nat → String) (D : FileMap)
    (fs0 : List (String × List Nat)) (dups : List DupFile)
    (st : DupState) (f : DupFile) (h : String)
    (hh : hash_file md5 f.file = some h) :
    (process_duplicates md5 D fs0 dups).moved +
        (process_duplicates md5 D fs0 dups).skipped +
        (process_duplicates md5 D fs0 dups).errors +
        dups.countP (fun g => (hash_file md5 g.file).isNone) = dups.length ∧
    (dup_step md5 D st f).skipped
      = st.skipped + (if (dlookup h D).isSome = true then 1 else 0) ∧
    (dup_step md5 D st f).moved + (dup_step md5 D st f).errors
      = st.moved + st.errors + (if (dlookup h D).isSome = true then 0 else 1) := by
  refine ⟨?_, ?_, ?_⟩
  · have hc := dup_fold_counts md5 D dups ⟨0, 0, 0, 0, fs0, []⟩
    have hl := dup_count_some_add_none md5 dups
    rw [process_duplicates]
    dsimp only at hc ⊢
    omega
  · cases hd : (dlookup h D).isSome with
    | true => rw [dup_step_dup md5 D st f h hh hd]; simp
    | false =>
        have hdn : dlookup h D = none := Option.not_isSome_iff_eq_none.1 (by simp [hd])
        cases hm : f.moveFails with
        | true => rw [dup_step_new_fail md5 D st f h hh hdn hm]; simp
        | false => rw [dup_step_new_move md5 D st f h hh hdn hm]; simp
  · cases hd : (dlookup h D).isSome with
    | true => rw [dup_step_dup md5 D st f h hh hd]; simp
    | false =>
        have hdn : dlookup h D = none := Option.not_isSome_iff_eq_none.1 (by simp [hd])
        cases hm : f.moveFails with
        | true => rw [dup_step_new_fail md5 D st f h hh hdn hm]; simp; omega
        | false => rw [dup_step_new_move md5 D st f h hh hdn hm]; simp; omega

/-- Witness for the amended C3: one duplicate of the destination and one new
file; counts 1 skip, 1 move, and the step-level decision for a fingerprint
present in the destination index. -/
theorem C3_amended_plan_witness :
    (process_duplicates toyDigest [(toyDigest [1], "a.jpg")] []
        [⟨⟨"/duplicates/x.jpg", "1.0", [1], true, true⟩, none, false⟩,
         ⟨⟨"/duplicates/y.jpg", "2.0", [2], true, true⟩, none, false⟩]).moved +
      (process_duplicates toyDigest [(toyDigest [1], "a.jpg")] []
        [⟨⟨"/duplicates/x.jpg", "1.0", [1], true, true⟩, none, false⟩,
         ⟨⟨"/duplicates/y.jpg", "2.0", [2], true, true⟩, none, false⟩]).skipped +
      (process_duplicates toyDigest [(toyDigest [1], "a.jpg")] []
        [⟨⟨"/duplicates/x.jpg", "1.0", [1], true, true⟩, none, false⟩,
         ⟨⟨"/duplicates/y.jpg", "2.0", [2], true, true⟩, none, false⟩]).errors +
      ([⟨⟨"/duplicates/x.jpg", "1.0", [1], true, true⟩, none, false⟩,
        ⟨⟨"/duplicates/y.jpg", "2.0", [2], true, true⟩, none, false⟩]
          : List DupFile).countP
        (fun g => (hash_file toyDigest g.file).isNone)
      = ([⟨⟨"/duplicates/x.jpg", "1.0", [1], true, true⟩, none, false⟩,
          ⟨⟨"/duplicates/y.jpg", "2.0", [2], true, true⟩, none, false⟩]
            : List DupFile).length ∧
    (dup_step toyDigest [(toyDigest [1], "a.jpg")] ⟨0, 0, 0, 0, [], []⟩
        ⟨⟨"/duplicates/x.jpg", "1.0", [1], true, true⟩, none, false⟩).skipped
      = (0 : Nat) +
        (if (dlookup (toyDigest [1]) [(toyDigest [1], "a.jpg")]).isSome = true
          then 1 else 0) ∧
    (dup_step toyDigest [(toyDigest [1], "a.jpg")] ⟨0, 0, 0, 0, [], []⟩
        ⟨⟨"/duplicates/x.jpg", "1.0", [1], true, true⟩, none, false⟩).moved +
      (dup_step toyDigest [(toyDigest [1], "a.jpg")] ⟨0, 0, 0, 0, [], []⟩
        ⟨⟨"/duplicates/x.jpg", "1.0", [1], true, true⟩, none, false⟩).errors
      = (0 : Nat) + (0 : Nat) +
        (if (dlookup (toyDigest [1]) [(toyDigest [1], "a.jpg")]).isSome = true
          then 0 else 1) :=
  C3_amended_plan toyDigest [(toyDigest [1], "a.jpg")] []
    [⟨⟨"/duplicates/x.jpg", "1.0", [1], true, true⟩, none, false⟩,
     ⟨⟨"/duplicates/y.jpg", "2.0", [2], true, true⟩, none, false⟩]
    ⟨0, 0, 0, 0, [], []⟩
    ⟨⟨"/duplicates/x.jpg", "1.0", [1], true, true⟩, none, false⟩
    (toyDigest [1]) (by decide)

/-- **C9** counterexample: the claim says a source file that becomes
unreadable mid-scan is logged as skipped and the run reports a non-zero error
count. In the code, `hash_file` returns `None` and `if not h: continue`
(lines 124-125) skips the file silently: no log line is emitted and the error
counter stays 0. -/
theorem C9_counterexample :
    (process_duplicates toyDigest [] []
        [⟨⟨"/duplicates/a.jpg", "1.0", [1], false, true⟩, none, false⟩]).errors = 0 ∧
    (process_duplicates toyDigest [] []
        [⟨⟨"/duplicates/a.jpg", "1.0", [1], false, true⟩, none, false⟩]).log
      = ([] : List String) := by
  decide

/-- **C9** (amended): a source file that becomes unreadable mid-scan is
skipped silently: the run completes with exactly the same counters, moves,
destination contents and log lines as the run without that file — no skip is
logged, the error count is not incremented — and the only trace is one extra
Digest Engine invocation. -/
theorem C9_amended_silent_skip (md5 : List Nat → String) (D : FileMap)
    (fs0 : List (String × List Nat)) (xs ys : List DupFile) (f : DupFile)
    (hh : hash_file md5 f.file = none) :
    process_duplicates md5 D fs0 (xs ++ f :: ys) =
      { process_duplicates md5 D fs0 (xs ++ ys) with
          calls := (process_duplicates md5 D fs0 (xs ++ ys)).calls + 1 } := by
  simp only [process_duplicates, List.foldl_append, List.foldl_cons]
  rw [dup_step_hashfail md5 D
    (List.foldl (dup_step md5 D) ⟨0, 0, 0, 0, fs0, []⟩ xs) f hh]
  rw [dup_fold_calls_shift]
  have hcalls : (List.foldl (dup_step md5 D) (⟨0, 0, 0, 0, fs0, []⟩ : DupState) xs).calls
        + 1 + ys.length
      = (List.foldl (dup_step md5 D)
          (List.foldl (dup_step md5 D) (⟨0, 0, 0, 0, fs0, []⟩ : DupState) xs) ys).calls
        + 1 := by
    rw [dup_fold_calls md5 D ys]
    omega
  rw [hcalls]

/-- Witness for the amended C9 at one concrete unreadable source file. -/
theorem C9_amended_silent_skip_witness :
    process_duplicates toyDigest [] []
        ([] ++ ⟨⟨"/duplicates/a.jpg", "1.0", [1], false, true⟩, none, false⟩ :: []) =
      { process_duplicates toyDigest [] [] ([] ++ []) with
          calls := (process_duplicates toyDigest [] [] ([] ++ [])).calls + 1 } :=
  C9_amended_silent_skip toyDigest [] [] [] []
    ⟨⟨"/duplicates/a.jpg", "1.0", [1], false, true⟩, none, false⟩ (by decide)

/-- **C10** (confirmed): a planned source file is moved to the date bucket
joined with its basename; `shutil.move` (line 136) is issued with no
existence check, so whatever file already sits at that exact destination path
is silently overwritten, while every other destination path is untouched. -/
theorem C10_move_overwrites (md5 : List Nat → String) (sm : FileMap)
    (st : DupState) (f : DupFile) (h : String) (old : List Nat)
    (hh : hash_file md5 f.file = some h) (hd : dlookup h sm = none)
    (hm : f.moveFails = false)
    (hex : dlookup (dest_path f) st.fs = some old) :
    dlookup (dest_path f) (dup_step md5 sm st f).fs = some f.file.content ∧
    (∀ p, ¬ p = dest_path f →
      dlookup p (dup_step md5 sm st f).fs = dlookup p st.fs) ∧
    dest_path f
      = SORTED_DIR ++ "/" ++ get_date_taken f.dateTag ++ "/" ++ basename f.file.path := by
  rw [dup_step_new_move md5 sm st f h hh hd hm]
  refine ⟨?_, ?_, rfl⟩
  · show dlookup (dest_path f) (dinsert (dest_path f) f.file.content st.fs)
      = some f.file.content
    rw [dlookup_dinsert, if_pos rfl]
  · intro p hp
    show dlookup p (dinsert (dest_path f) f.file.content st.fs) = dlookup p st.fs
    rw [dlookup_dinsert, if_neg (fun he => hp he.symm)]

/-- Witness for C10: the destination already holds `/sorted/2020/01/02/a.jpg`
with content `[42]`; moving the planned source file with content `[7]` and
the same date bucket and basename silently replaces it, and an unrelated
path is untouched. -/
theorem C10_move_overwrites_witness :
    dlookup (dest_path ⟨⟨"/duplicates/2020/a.jpg", "3.0", [7], true, true⟩,
        some "2020/01/02", false⟩)
      (dup_step toyDigest []
        ⟨0, 0, 0, 0, [("/sorted/2020/01/02/a.jpg", [42])], []⟩
        ⟨⟨"/duplicates/2020/a.jpg", "3.0", [7], true, true⟩,
          some "2020/01/02", false⟩).fs = some [7] ∧
    dlookup "/other"
      (dup_step toyDigest []
        ⟨0, 0, 0, 0, [("/sorted/2020/01/02/a.jpg", [42])], []⟩
        ⟨⟨"/duplicates/2020/a.jpg", "3.0", [7], true, true⟩,
          some "2020/01/02", false⟩).fs
      = dlookup "/other"
          ((⟨0, 0, 0, 0, [("/sorted/2020/01/02/a.jpg", [42])], []⟩ : DupState)).fs ∧
    dest_path ⟨⟨"/duplicates/2020/a.jpg", "3.0", [7], true, true⟩,
        some "2020/01/02", false⟩
      = SORTED_DIR ++ "/" ++ get_date_taken (some "2020/01/02") ++ "/"
          ++ basename "/duplicates/2020/a.jpg" := by
  have hC := C10_move_overwrites toyDigest []
    ⟨0, 0, 0, 0, [("/sorted/2020/01/02/a.jpg", [42])], []⟩
    ⟨⟨"/duplicates/2020/a.jpg", "3.0", [7], true, true⟩, some "2020/01/02", false⟩
    (toyDigest [7]) [42] (by decide) (by decide) (by decide) (by decide)
  exact ⟨hC.1, hC.2.1 "/other" (by decide), hC.2.2⟩

/-- **C8** counterexample: the claim says that for files of either tree the
Fingerprint Cache is consulted first and the Digest Engine invoked only on a
miss. Here the persisted cache holds exactly the source file's
`(path, mtime)` key, yet the duplicates scan of `main` (line 123 calls
`hash_file` directly) performs one digest invocation instead of zero. -/
theorem C8_counterexample :
    (main toyDigest
        (some (some [(cacheKey "/duplicates/a.jpg" "7.0", some "cachedfp")]))
        [] [] [⟨⟨"/duplicates/a.jpg", "7.0", [3], true, true⟩, none, false⟩]).2.2.calls
      = 1 := by
  decide

/-- **C8** (amended): in the destination-tree walk (`build_hash_map`) the
cache is consulted first under `(path, current mtime)`, the Digest Engine
runs only on a miss, and after the step the key is bound to the cached value
on a hit and to the freshly computed fingerprint on a miss. In the
source-tree (duplicates) scan of `main`, however, the Digest Engine is
invoked once for every file — the cache is neither consulted nor updated
there, and the duplicate phase is the same computation whatever was
persisted. -/
theorem C8_amended_cache_discipline (md5 : List Nat → String) (b : String)
    (st : IxState) (f : FSFile) (persisted : Option (Option Cache))
    (fs0 : List (String × List Nat)) (dups : List DupFile)
    (hs : f.statOk = true) :
    (ix_step md5 b st f).calls
      = st.calls + (if (dlookup (keyOf f) st.cache).isSome = true then 0 else 1) ∧
    dlookup (keyOf f) (ix_step md5 b st f).cache
      = some ((dlookup (keyOf f) st.cache).getD (hash_file md5 f)) ∧
    (main md5 persisted [] fs0 dups).2.2.calls = dups.length ∧
    (main md5 persisted [] fs0 dups).2.2 = process_duplicates md5 [] fs0 dups := by
  refine ⟨?_, ?_, ?_, rfl⟩
  · cases hl : dlookup (keyOf f) st.cache with
    | some h => rw [ix_step_hit md5 b st f h hs hl]; simp [hl]
    | none => rw [ix_step_miss md5 b st f hs hl]; simp [hl]
  · cases hl : dlookup (keyOf f) st.cache with
    | some h => rw [ix_step_hit md5 b st f h hs hl]; simp [hl]
    | none =>
        rw [ix_step_miss md5 b st f hs hl]
        show dlookup (keyOf f) (dinsert (keyOf f) (hash_file md5 f) st.cache)
          = some (Option.getD none (hash_file md5 f))
        rw [dlookup_dinsert, if_pos rfl]
        rfl
  · show (process_duplicates md5 [] fs0 dups).calls = dups.length
    rw [process_duplicates, dup_fold_calls]
    simp

/-- Witness for the amended C8: a destination file whose key is cached (hit:
no digest call, binding kept) and a one-file duplicates scan (one digest
call). -/
theorem C8_amended_cache_discipline_witness :
    (ix_step toyDigest "/sorted"
        ⟨[(cacheKey "/sorted/a.jpg" "1.0", some "h1")], [], 0⟩
        ⟨"/sorted/a.jpg", "1.0", [1], true, true⟩).calls
      = (0 : Nat) +
        (if (dlookup (keyOf ⟨"/sorted/a.jpg", "1.0", [1], true, true⟩)
              (⟨[(cacheKey "/sorted/a.jpg" "1.0", some "h1")], [], 0⟩ : IxState).cache).isSome
            = true then 0 else 1) ∧
    dlookup (keyOf ⟨"/sorted/a.jpg", "1.0", [1], true, true⟩)
        (ix_step toyDigest "/sorted"
          ⟨[(cacheKey "/sorted/a.jpg" "1.0", some "h1")], [], 0⟩
          ⟨"/sorted/a.jpg", "1.0", [1], true, true⟩).cache
      = some ((dlookup (keyOf ⟨"/sorted/a.jpg", "1.0", [1], true, true⟩)
          (⟨[(cacheKey "/sorted/a.jpg" "1.0", some "h1")], [], 0⟩ : IxState).cache).getD
            (hash_file toyDigest ⟨"/sorted/a.jpg", "1.0", [1], true, true⟩)) ∧
    (main toyDigest none []
        [] [⟨⟨"/duplicates/b.jpg", "2.0", [2], true, true⟩, none, false⟩]).2.2.calls
      = ([⟨⟨"/duplicates/b.jpg", "2.0", [2], true, true⟩, none, false⟩]
          : List DupFile).length ∧
    (main toyDigest none []
        [] [⟨⟨"/duplicates/b.jpg", "2.0", [2], true, true⟩, none, false⟩]).2.2
      = process_duplicates toyDigest [] []
          [⟨⟨"/duplicates/b.jpg", "2.0", [2], true, true⟩, none, false⟩] :=
  C8_amended_cache_discipline toyDigest "/sorted"
    ⟨[(cacheKey "/sorted/a.jpg" "1.0", some "h1")], [], 0⟩
    ⟨"/sorted/a.jpg", "1.0", [1], true, true⟩ none []
    [⟨⟨"/duplicates/b.jpg", "2.0", [2], true, true⟩, none, false⟩] (by decide)

end PhotoSync
